import Mathlib

/-!
Verification development for the `php-ext-wasm` extension core
(`src/extension/wasm.hh`): the buffer / typed-view ownership model and the
persistent resource-handle registry.

The file under `src/` is a declarations-only header: it fixes the data model
(`wasm_array_buffer_object`, `wasm_typed_array_kind`,
`wasm_typed_array_object`, the four resource declarations and the persistent
clean-up pass) but the function bodies live in the extension's `.cc`
translation unit, which is not part of `src/`.  Where a body is missing, the
corresponding Lean definition is modelled from the specification and marked
`Modelled from the spec:` in its doc comment.  Byte order is the platform's
native order; we fix little-endian, matching the x86 hosts the extension
targets (the spec mandates no conversion, only consistency).
-/

namespace PhpExtWasm

/-- The error taxonomy of the specification (§7): allocation failure, view
range violation, unsupported view kind, out-of-bounds element access, and use
of a destroyed resource handle. -/
inductive wasm_error where
  | allocationError
  | rangeError
  | invalidKindError
  | indexError
  | staleHandleError
  deriving DecidableEq, Repr

/-- The six typed-array view kinds, embedded from the `wasm_typed_array_kind`
enum of `src/extension/wasm.hh` (lines 190–197). -/
inductive wasm_typed_array_kind where
  | INT8
  | UINT8
  | INT16
  | UINT16
  | INT32
  | UINT32
  deriving DecidableEq, Repr

/-- Width in bytes of one element of a given kind, as fixed by the union
member types `int8_t* .. uint32_t*` in `wasm_typed_array_object.view`. -/
def element_size : wasm_typed_array_kind → Nat
  | .INT8 => 1
  | .UINT8 => 1
  | .INT16 => 2
  | .UINT16 => 2
  | .INT32 => 4
  | .UINT32 => 4

/-- Whether the kind's elements are read back as signed (two's complement),
as fixed by the signedness of the union member types. -/
def is_signed : wasm_typed_array_kind → Bool
  | .INT8 => true
  | .UINT8 => false
  | .INT16 => true
  | .UINT16 => false
  | .INT32 => true
  | .UINT32 => false

/-- Map a raw kind code to one of the six recognized kinds; any other code is
unrecognized.  The codes follow the order of the C enum. -/
def kind_of_code : Nat → Option wasm_typed_array_kind
  | 0 => some .INT8
  | 1 => some .UINT8
  | 2 => some .INT16
  | 3 => some .UINT16
  | 4 => some .INT32
  | 5 => some .UINT32
  | _ => none

/-! ## Raw byte memory

A byte region is a `List Nat` of bytes (each kept `< 256` by construction).
`byteAt` and `setByte` model single-byte loads and stores; reads outside the
list return 0 (never exercised under the bounds checks proved below). -/

/-- Load the byte at position `i`; 0 when out of range. -/
def byteAt : List Nat → Nat → Nat
  | [], _ => 0
  | b :: _, 0 => b
  | _ :: bs, n + 1 => byteAt bs n

/-- Store byte `v` at position `i`; no effect when out of range. -/
def setByte : List Nat → Nat → Nat → List Nat
  | [], _, _ => []
  | _ :: bs, 0, v => v :: bs
  | b :: bs, n + 1, v => b :: setByte bs n v

/-- Read `n` consecutive bytes starting at `base`. -/
def readBytes (data : List Nat) (base : Nat) : Nat → List Nat
  | 0 => []
  | n + 1 => byteAt data base :: readBytes data (base + 1) n

/-- Write the byte list `bs` starting at `base`. -/
def writeBytes (data : List Nat) (base : Nat) : List Nat → List Nat
  | [] => data
  | b :: bs => writeBytes (setByte data base b) (base + 1) bs

/-- Little-endian decoding of a byte list to an unsigned value. -/
def bytesToNat : List Nat → Nat
  | [] => 0
  | b :: bs => b + 256 * bytesToNat bs

/-- Little-endian encoding of `v` into `n` bytes (dropping higher bits). -/
def natToBytes : Nat → Nat → List Nat
  | 0, _ => []
  | n + 1, v => v % 256 :: natToBytes n (v / 256)

/-- Reinterpret an unsigned `element_size`-wide value per the kind's
signedness: signed kinds fold values at or above `2 ^ (w - 1)` down by
`2 ^ w` (two's complement). -/
def reinterpret (kind : wasm_typed_array_kind) (u : Nat) : Int :=
  if is_signed kind ∧ 2 ^ (8 * element_size kind - 1) ≤ u then
    (u : Int) - 2 ^ (8 * element_size kind)
  else
    (u : Int)

/-- Two's-complement truncation of an arbitrary integer to the kind's width
and signedness: wrap modulo `2 ^ w`, then reinterpret. -/
def truncate (kind : wasm_typed_array_kind) (v : Int) : Int :=
  reinterpret kind (v % (2 ^ (8 * element_size kind) : Nat)).toNat

/-! ## Array Buffer Object

Embedded from the `wasm_array_buffer_object` struct of
`src/extension/wasm.hh` (lines 55–68): an internal buffer, its length, and
the flag recording whether this layer allocated it.  The `zend_object`
member (host reference counting) is modelled separately below. -/

structure wasm_array_buffer_object where
  buffer : List Nat
  buffer_length : Nat
  allocated_buffer : Bool
  deriving DecidableEq, Repr

/-- Modelled from the spec: the body of `WasmArrayBuffer::__construct` (and
`create_wasm_array_buffer_object`) is not in `src/`; §4.1 specifies that
construction allocates `length` zero-filled bytes with
`owns_allocation = true`, failing with `AllocationError` when the allocator
cannot satisfy the request.  `canAlloc` abstracts the allocator's success. -/
def array_buffer_construct (canAlloc : Nat → Bool) (length : Nat) :
    Except wasm_error wasm_array_buffer_object :=
  if canAlloc length then
    .ok ⟨List.replicate length 0, length, true⟩
  else
    .error .allocationError

/-- Modelled from the spec: §4.1 `adopt(pointer, length)` wraps an externally
owned region with `owns_allocation = false` and no allocation. -/
def array_buffer_adopt (region : List Nat) : wasm_array_buffer_object :=
  ⟨region, region.length, false⟩

/-- Modelled from the spec: §4.1 `byte_length()` returns the fixed region
length. -/
def byte_length (b : wasm_array_buffer_object) : Nat :=
  b.buffer_length

/-! ## Typed View

Embedded from the `wasm_typed_array_object` struct of `src/extension/wasm.hh`
(lines 205–236): a kind, an element offset, an element count; the
`wasm_array_buffer` zval reference and the cached union pointer are modelled
in the liveness and cache sections below. -/

structure wasm_typed_array_object where
  kind : wasm_typed_array_kind
  offset : Nat
  length : Nat
  deriving DecidableEq, Repr

/-- The byte-range invariant of §3: the view's element window, scaled to
bytes, fits inside the buffer. -/
def view_in_range (v : wasm_typed_array_object) (b : wasm_array_buffer_object) : Prop :=
  v.offset * element_size v.kind + v.length * element_size v.kind ≤ b.buffer_length

instance (v : wasm_typed_array_object) (b : wasm_array_buffer_object) :
    Decidable (view_in_range v b) := by
  unfold view_in_range; infer_instance

/-- The representation invariant tying the recorded `buffer_length` field to
the byte list actually stored. -/
def buffer_wf (b : wasm_array_buffer_object) : Prop :=
  b.buffer_length = b.buffer.length

/-- Modelled from the spec: the body of `WasmTypedArray::__construct` is not
in `src/`; §4.2 specifies validation of the byte-range invariant
(`RangeError` on violation) and rejection of unrecognized kinds
(`InvalidKindError`). -/
def typed_array_construct (b : wasm_array_buffer_object) (code : Nat)
    (offset length : Nat) : Except wasm_error wasm_typed_array_object :=
  match kind_of_code code with
  | none => .error .invalidKindError
  | some k =>
    if offset * element_size k + length * element_size k ≤ b.buffer_length then
      .ok ⟨k, offset, length⟩
    else
      .error .rangeError

/-- Modelled from the spec: the body of the typed-array `get` method is not
in `src/`; §4.2 specifies an `IndexError` on `index >= length_elements`, and
otherwise a load of `element_size kind` bytes at byte position
`(offset + index) * element_size kind`, reinterpreted per the kind. -/
def typed_array_get (v : wasm_typed_array_object) (b : wasm_array_buffer_object)
    (index : Nat) : Except wasm_error Int :=
  if index < v.length then
    .ok (reinterpret v.kind
      (bytesToNat (readBytes b.buffer ((v.offset + index) * element_size v.kind)
        (element_size v.kind))))
  else
    .error .indexError

/-- Modelled from the spec: the body of the typed-array `set` method is not
in `src/`; §4.2 specifies the same bounds check and a store of the value
wrapped modulo `2 ^ width`, written into the shared buffer bytes. -/
def typed_array_set (v : wasm_typed_array_object) (b : wasm_array_buffer_object)
    (index : Nat) (value : Int) : Except wasm_error wasm_array_buffer_object :=
  if index < v.length then
    .ok { b with
      buffer := writeBytes b.buffer ((v.offset + index) * element_size v.kind)
        (natToBytes (element_size v.kind)
          (value % (2 ^ (8 * element_size v.kind) : Nat)).toNat) }
  else
    .error .indexError

/-- One step of the host-visible `set` call: the state after the call paired
with the error it raised, if any.  A failed call leaves the buffer exactly as
it was. -/
def typed_array_set_run (v : wasm_typed_array_object) (b : wasm_array_buffer_object)
    (index : Nat) (value : Int) : wasm_array_buffer_object × Option wasm_error :=
  match typed_array_set v b index value with
  | .ok b2 => (b2, none)
  | .error e => (b, some e)

/-! ## Byte-memory lemmas -/

theorem element_size_pos (k : wasm_typed_array_kind) : 0 < element_size k := by
  cases k <;> decide

theorem length_setByte (data : List Nat) (i v : Nat) :
    (setByte data i v).length = data.length := by
  induction data generalizing i with
  | nil => rfl
  | cons b bs ih =>
    cases i with
    | zero => rfl
    | succ n => simp [setByte, ih]

theorem byteAt_setByte_self (data : List Nat) (i v : Nat) (h : i < data.length) :
    byteAt (setByte data i v) i = v := by
  induction data generalizing i with
  | nil => simp at h
  | cons b bs ih =>
    cases i with
    | zero => rfl
    | succ n => exact ih n (Nat.lt_of_succ_lt_succ (by simpa using h))

theorem byteAt_setByte_ne (data : List Nat) (i j v : Nat) (h : i ≠ j) :
    byteAt (setByte data i v) j = byteAt data j := by
  induction data generalizing i j with
  | nil => rfl
  | cons b bs ih =>
    cases i with
    | zero =>
      cases j with
      | zero => exact absurd rfl h
      | succ m => rfl
    | succ n =>
      cases j with
      | zero => rfl
      | succ m => exact ih n m (fun e => h (by rw [e]))

theorem length_writeBytes (bs : List Nat) (data : List Nat) (base : Nat) :
    (writeBytes data base bs).length = data.length := by
  induction bs generalizing data base with
  | nil => rfl
  | cons b rest ih => simp [writeBytes, ih, length_setByte]

theorem byteAt_writeBytes_lt (bs : List Nat) (data : List Nat) (base j : Nat)
    (h : j < base) : byteAt (writeBytes data base bs) j = byteAt data j := by
  induction bs generalizing data base with
  | nil => rfl
  | cons b rest ih =>
    show byteAt (writeBytes (setByte data base b) (base + 1) rest) j = _
    rw [ih (setByte data base b) (base + 1) (by omega),
      byteAt_setByte_ne data base j b (by omega)]

theorem byteAt_writeBytes_ge (bs : List Nat) (data : List Nat) (base j : Nat)
    (h : base + bs.length ≤ j) :
    byteAt (writeBytes data base bs) j = byteAt data j := by
  induction bs generalizing data base with
  | nil => rfl
  | cons b rest ih =>
    show byteAt (writeBytes (setByte data base b) (base + 1) rest) j = _
    rw [ih (setByte data base b) (base + 1) (by simp at h; omega),
      byteAt_setByte_ne data base j b (by simp at h; omega)]

theorem length_natToBytes (n v : Nat) : (natToBytes n v).length = n := by
  induction n generalizing v with
  | zero => rfl
  | succ m ih => simp [natToBytes, ih]

theorem readBytes_writeBytes (bs : List Nat) (data : List Nat) (base : Nat)
    (h : base + bs.length ≤ data.length) :
    readBytes (writeBytes data base bs) base bs.length = bs := by
  induction bs generalizing data base with
  | nil => rfl
  | cons b rest ih =>
    have hbase : base < data.length := by simp at h; omega
    show byteAt (writeBytes (setByte data base b) (base + 1) rest) base ::
        readBytes (writeBytes (setByte data base b) (base + 1) rest) (base + 1)
          rest.length = b :: rest
    rw [byteAt_writeBytes_lt rest (setByte data base b) (base + 1) base (by omega),
      byteAt_setByte_self data base b hbase,
      ih (setByte data base b) (base + 1) (by rw [length_setByte]; simp at h; omega)]

theorem bytesToNat_natToBytes (n v : Nat) :
    bytesToNat (natToBytes n v) = v % 256 ^ n := by
  induction n generalizing v with
  | zero => simp [natToBytes, bytesToNat, Nat.mod_one]
  | succ m ih =>
    show v % 256 + 256 * bytesToNat (natToBytes m (v / 256)) = v % 256 ^ (m + 1)
    rw [ih (v / 256), pow_succ, mul_comm (256 ^ m) 256, Nat.mod_mul]

theorem two_pow_eight_mul (n : Nat) : (2 : Nat) ^ (8 * n) = 256 ^ n := by
  rw [pow_mul]; norm_num

theorem wrapped_lt (k : wasm_typed_array_kind) (value : Int) :
    (value % ((2 ^ (8 * element_size k) : Nat) : Int)).toNat
      < 2 ^ (8 * element_size k) := by
  have hpos : (0 : Int) < ((2 ^ (8 * element_size k) : Nat) : Int) := by
    exact_mod_cast Nat.pos_pow_of_pos (8 * element_size k) (by omega)
  have hlt := Int.emod_lt_of_pos value hpos
  have hnn := Int.emod_nonneg value (ne_of_gt hpos)
  omega

/-! ## The set/get round trip (C4) -/

theorem view_byte_bound (v : wasm_typed_array_object) (b : wasm_array_buffer_object)
    (index : Nat) (hwf : buffer_wf b) (hr : view_in_range v b) (hi : index < v.length) :
    (v.offset + index) * element_size v.kind + element_size v.kind ≤ b.buffer.length := by
  have : (v.offset + index) * element_size v.kind + element_size v.kind
      = (v.offset + index + 1) * element_size v.kind := by ring
  rw [this, ← hwf]
  calc (v.offset + index + 1) * element_size v.kind
      ≤ (v.offset + v.length) * element_size v.kind := by
        exact Nat.mul_le_mul_right _ (by omega)
    _ = v.offset * element_size v.kind + v.length * element_size v.kind := by ring
    _ ≤ b.buffer_length := hr

/-- C4: for every view kind and in-range index, `set index v` followed by
`get index` yields `truncate v kind`: the stored value wraps modulo
`2 ^ width` with the kind's signedness (two's-complement truncation). -/
theorem set_get_roundtrip (v : wasm_typed_array_object) (b : wasm_array_buffer_object)
    (index : Nat) (value : Int)
    (hwf : buffer_wf b) (hr : view_in_range v b) (hi : index < v.length) :
    (typed_array_set v b index value).bind (fun b2 => typed_array_get v b2 index)
      = .ok (truncate v.kind value) := by
  have hb := view_byte_bound v b index hwf hr hi
  set es := element_size v.kind with hes
  set u := (value % ((2 ^ (8 * es) : Nat) : Int)).toNat with hu
  rw [typed_array_set, if_pos hi]
  show typed_array_get v _ index = _
  rw [typed_array_get, if_pos hi]
  have hread : readBytes (writeBytes b.buffer ((v.offset + index) * es) (natToBytes es u))
      ((v.offset + index) * es) es = natToBytes es u := by
    have := readBytes_writeBytes (natToBytes es u) b.buffer ((v.offset + index) * es)
      (by rw [length_natToBytes]; exact hb)
    rwa [length_natToBytes] at this

  show Except.ok (reinterpret v.kind (bytesToNat (readBytes
      (writeBytes b.buffer ((v.offset + index) * es) (natToBytes es u))
      ((v.offset + index) * es) es))) = _
  rw [hread, bytesToNat_natToBytes, ← two_pow_eight_mul,
    Nat.mod_eq_of_lt (wrapped_lt v.kind value)]
  rfl

/-- A closed instance of the C4 round trip: on a fresh 4-byte buffer viewed
as `uint8`, `set 0 256` then `get 0` returns 0 (the wrap example of §8). -/
theorem set_get_roundtrip_witness :
    (typed_array_set ⟨.UINT8, 0, 4⟩ ⟨List.replicate 4 0, 4, true⟩ 0 256).bind
      (fun b2 => typed_array_get ⟨.UINT8, 0, 4⟩ b2 0) = .ok 0 := by
  have h := set_get_roundtrip ⟨.UINT8, 0, 4⟩ ⟨List.replicate 4 0, 4, true⟩ 0 256
    rfl (by decide) (by decide)
  simpa using h

/-! ## Buffer construction (C6) -/

theorem byteAt_replicate_zero (n i : Nat) : byteAt (List.replicate n 0) i = 0 := by
  induction n generalizing i with
  | zero => rfl
  | succ m ih =>
    cases i with
    | zero => rfl
    | succ j => exact ih j

/-- C6: for every requested length `n`, construction either fails with
`AllocationError` (exactly when the allocator refuses `n`) or yields a
well-formed buffer of byte length `n`, zero-filled, with
`allocated_buffer = true`. -/
theorem array_buffer_construct_spec (canAlloc : Nat → Bool) (n : Nat) :
    (∀ b, array_buffer_construct canAlloc n = .ok b →
      byte_length b = n ∧ b.allocated_buffer = true ∧ buffer_wf b ∧
      ∀ i, i < n → byteAt b.buffer i = 0) ∧
    (∀ e, array_buffer_construct canAlloc n = .error e →
      e = .allocationError ∧ canAlloc n = false) := by
  unfold array_buffer_construct
  by_cases h : canAlloc n = true
  · rw [if_pos h]
    constructor
    · intro b hb
      injection hb with hb
      subst hb
      refine ⟨rfl, rfl, by simp [buffer_wf], fun i _ => byteAt_replicate_zero n i⟩
    · intro e he; cases he
  · rw [if_neg h]
    constructor
    · intro b hb; cases hb
    · intro e he
      injection he with he
      exact ⟨he.symm, by simpa using h⟩

/-- A closed instance of C6: `construct 3` on a willing allocator yields the
3-byte zero buffer, whose length is 3 and whose byte 2 reads 0. -/
theorem array_buffer_construct_spec_witness :
    byte_length ⟨List.replicate 3 0, 3, true⟩ = 3 ∧
    byteAt (List.replicate 3 0) 2 = 0 :=
  ⟨((array_buffer_construct_spec (fun _ => true) 3).1 ⟨List.replicate 3 0, 3, true⟩ rfl).1,
   ((array_buffer_construct_spec (fun _ => true) 3).1 ⟨List.replicate 3 0, 3, true⟩
      rfl).2.2.2 2 (by decide)⟩

/-! ## View construction validation (C5) -/

theorem byte_length_set_run (v : wasm_typed_array_object) (b : wasm_array_buffer_object)
    (index : Nat) (value : Int) :
    ((typed_array_set_run v b index value).1).buffer_length = b.buffer_length := by
  unfold typed_array_set_run typed_array_set
  by_cases h : index < v.length
  · rw [if_pos h]
  · rw [if_neg h]

theorem buffer_wf_set_run (v : wasm_typed_array_object) (b : wasm_array_buffer_object)
    (index : Nat) (value : Int) (hwf : buffer_wf b) :
    buffer_wf ((typed_array_set_run v b index value).1) := by
  unfold typed_array_set_run typed_array_set
  by_cases h : index < v.length
  · rw [if_pos h]
    show b.buffer_length = (writeBytes b.buffer _ _).length
    rw [length_writeBytes]; exact hwf
  · rw [if_neg h]; exact hwf

/-- C5: view construction succeeds exactly when the scaled byte range fits
in the buffer, fails with `RangeError` exactly when it exceeds it (which
covers a nonzero request over a zero-length buffer), fails with
`InvalidKindError` on an unrecognized kind code, and the construction-time
check stays valid because no operation changes the buffer length. -/
theorem typed_array_construct_spec (b : wasm_array_buffer_object)
    (code offset length : Nat) :
    (kind_of_code code = none →
      typed_array_construct b code offset length = .error .invalidKindError) ∧
    (∀ k, kind_of_code code = some k →
      (typed_array_construct b code offset length = .ok ⟨k, offset, length⟩ ↔
        offset * element_size k + length * element_size k ≤ byte_length b) ∧
      (typed_array_construct b code offset length = .error .rangeError ↔
        byte_length b < offset * element_size k + length * element_size k) ∧
      (∀ v index value,
        byte_length ((typed_array_set_run v b index value).1) = byte_length b)) := by
  constructor
  · intro hnone
    unfold typed_array_construct
    rw [hnone]
  · intro k hk
    unfold typed_array_construct
    rw [hk]
    dsimp only
    by_cases h : offset * element_size k + length * element_size k ≤ b.buffer_length
    · rw [if_pos h]
      unfold byte_length
      refine ⟨?_, ?_, ?_⟩
      · exact ⟨(fun _ => h), (fun _ => rfl)⟩
      · exact ⟨(fun he => by cases he), (fun hlt => absurd h (by omega))⟩
      · exact fun v index value => byte_length_set_run v b index value
    · rw [if_neg h]
      unfold byte_length
      refine ⟨?_, ?_, ?_⟩
      · exact ⟨(fun he => by cases he), (fun hle => absurd hle h)⟩
      · exact ⟨(fun _ => by omega), (fun _ => rfl)⟩
      · exact fun v index value => byte_length_set_run v b index value

/-- Closed instances of C5: a `uint8` view of 4 elements over a 4-byte
buffer succeeds; an `int16` view of 2 elements over a 2-byte buffer fails
with `RangeError` (the §8 example); length 1 over a 0-byte buffer fails with
`RangeError`; kind code 6 fails with `InvalidKindError`. -/
theorem typed_array_construct_spec_witness :
    typed_array_construct ⟨List.replicate 4 0, 4, true⟩ 1 0 4 = .ok ⟨.UINT8, 0, 4⟩ ∧
    typed_array_construct ⟨List.replicate 2 0, 2, true⟩ 2 0 2 = .error .rangeError ∧
    typed_array_construct ⟨[], 0, true⟩ 1 0 1 = .error .rangeError ∧
    typed_array_construct ⟨List.replicate 4 0, 4, true⟩ 6 0 1 = .error .invalidKindError :=
  ⟨(((typed_array_construct_spec ⟨List.replicate 4 0, 4, true⟩ 1 0 4).2 .UINT8
      rfl).1).mpr (by decide),
   (((typed_array_construct_spec ⟨List.replicate 2 0, 2, true⟩ 2 0 2).2 .INT16
      rfl).2.1).mpr (by decide),
   (((typed_array_construct_spec ⟨[], 0, true⟩ 1 0 1).2 .UINT8
      rfl).2.1).mpr (by decide),
   (typed_array_construct_spec ⟨List.replicate 4 0, 4, true⟩ 6 0 1).1 rfl⟩

/-! ## Out-of-bounds element access (C8) -/

theorem readBytes_eq_map (data : List Nat) (base n : Nat) :
    readBytes data base n = (List.range n).map (fun j => byteAt data (base + j)) := by
  induction n generalizing base with
  | zero => rfl
  | succ m ih =>
    rw [List.range_succ_eq_map]
    show byteAt data base :: readBytes data (base + 1) m = _
    rw [ih (base + 1), List.map_cons, List.map_map]
    refine congrArg₂ List.cons (by rw [Nat.add_zero]) ?_
    apply List.map_congr_left
    intro j _
    show byteAt data (base + 1 + j) = byteAt data (base + (j + 1))
    rw [Nat.add_comm j 1, ← Nat.add_assoc]

/-- C8: `get` and `set` at an index at or beyond the element count fail with
`IndexError` and leave the buffer exactly as it was; an in-range `get` reads
the `element_size` bytes starting at byte `(offset + index) * element_size`
of the shared buffer, reinterpreted per the kind. -/
theorem get_set_index_spec (v : wasm_typed_array_object) (b : wasm_array_buffer_object)
    (index : Nat) (value : Int) :
    (v.length ≤ index →
      typed_array_get v b index = .error .indexError ∧
      typed_array_set_run v b index value = (b, some .indexError)) ∧
    (index < v.length →
      typed_array_get v b index = .ok (reinterpret v.kind (bytesToNat
        ((List.range (element_size v.kind)).map
          (fun j => byteAt b.buffer ((v.offset + index) * element_size v.kind + j)))))) := by
  constructor
  · intro h
    have hnot : ¬ index < v.length := by omega
    constructor
    · unfold typed_array_get
      rw [if_neg hnot]
    · unfold typed_array_set_run typed_array_set
      rw [if_neg hnot]
  · intro h
    unfold typed_array_get
    rw [if_pos h, readBytes_eq_map]

/-- Closed instances of C8: on the 2-byte buffer `[7, 9]` viewed as `uint8`
with 2 elements, access at index 5 fails with `IndexError` for both `get`
and `set` (the buffer coming back unchanged), while `get 1` reads 9. -/
theorem get_set_index_spec_witness :
    typed_array_get ⟨.UINT8, 0, 2⟩ ⟨[7, 9], 2, true⟩ 5 = .error .indexError ∧
    typed_array_set_run ⟨.UINT8, 0, 2⟩ ⟨[7, 9], 2, true⟩ 5 3 =
      (⟨[7, 9], 2, true⟩, some .indexError) ∧
    typed_array_get ⟨.UINT8, 0, 2⟩ ⟨[7, 9], 2, true⟩ 1 = .ok 9 :=
  ⟨((get_set_index_spec ⟨.UINT8, 0, 2⟩ ⟨[7, 9], 2, true⟩ 5 3).1 (by decide)).1,
   ((get_set_index_spec ⟨.UINT8, 0, 2⟩ ⟨[7, 9], 2, true⟩ 5 3).1 (by decide)).2,
   by
    have h := (get_set_index_spec ⟨.UINT8, 0, 2⟩ ⟨[7, 9], 2, true⟩ 1 3).2 (by decide)
    simpa using h⟩

/-! ## Aliasing of views over one buffer (C7) -/

theorem byteAt_writeBytes_self (bs : List Nat) (data : List Nat) (base t : Nat)
    (ht : t < bs.length) (hb : base + bs.length ≤ data.length) :
    byteAt (writeBytes data base bs) (base + t) = byteAt bs t := by
  induction bs generalizing data base t with
  | nil => simp at ht
  | cons b rest ih =>
    cases t with
    | zero =>
      show byteAt (writeBytes (setByte data base b) (base + 1) rest) base = b
      rw [byteAt_writeBytes_lt rest (setByte data base b) (base + 1) base (by omega),
        byteAt_setByte_self data base b (by simp at hb; omega)]
    | succ s =>
      show byteAt (writeBytes (setByte data base b) (base + 1) rest) (base + (s + 1))
          = byteAt rest s
      have harr : base + (s + 1) = (base + 1) + s := by omega
      rw [harr]
      exact ih (setByte data base b) (base + 1) s (by simp at ht; omega)
        (by rw [length_setByte]; simp at hb; omega)

theorem byteAt_natToBytes (n v t : Nat) (ht : t < n) :
    byteAt (natToBytes n v) t = v / 256 ^ t % 256 := by
  induction n generalizing v t with
  | zero => simp at ht
  | succ m ih =>
    cases t with
    | zero =>
      show v % 256 = v / 256 ^ 0 % 256
      rw [pow_zero, Nat.div_one]
    | succ s =>
      show byteAt (natToBytes m (v / 256)) s = v / 256 ^ (s + 1) % 256
      rw [ih (v / 256) s (by omega), Nat.div_div_eq_div_mul, ← pow_succ']

theorem byteAt_writeBytes_cases (bs : List Nat) (data : List Nat) (base p : Nat)
    (hb : base + bs.length ≤ data.length) :
    byteAt (writeBytes data base bs) p =
      if base ≤ p ∧ p < base + bs.length then byteAt bs (p - base)
      else byteAt data p := by
  by_cases h1 : base ≤ p
  · by_cases h2 : p < base + bs.length
    · rw [if_pos ⟨h1, h2⟩]
      obtain ⟨t, rfl⟩ : ∃ t, p = base + t := ⟨p - base, by omega⟩
      rw [byteAt_writeBytes_self bs data base t (by omega) hb]
      congr 1
      omega
    · rw [if_neg (by omega), byteAt_writeBytes_ge bs data base p (by omega)]
  · rw [if_neg (by omega), byteAt_writeBytes_lt bs data base p (by omega)]

/-- C7: for any two views over the same buffer — any of the six kinds on
either side, any overlap — a `get` through `v2` after a `set` through `v1`
returns the reinterpretation of the shared underlying bytes: every byte
position of `v2`'s element that falls inside `v1`'s written range holds the
corresponding little-endian byte of the wrapped written value, and every
position outside it holds the old buffer byte — there is no copy-on-view,
so overlapping views of different kinds observe each other's writes. -/
theorem aliasing_observed (v1 v2 : wasm_typed_array_object)
    (b : wasm_array_buffer_object) (index1 index2 : Nat) (value : Int)
    (hwf : buffer_wf b) (hr1 : view_in_range v1 b) (hi1 : index1 < v1.length)
    (hi2 : index2 < v2.length) :
    (typed_array_set v1 b index1 value).bind (fun b2 =>
      typed_array_get v2 b2 index2)
      = .ok (reinterpret v2.kind (bytesToNat
          ((List.range (element_size v2.kind)).map (fun j =>
            if (v1.offset + index1) * element_size v1.kind
                  ≤ (v2.offset + index2) * element_size v2.kind + j ∧
                (v2.offset + index2) * element_size v2.kind + j
                  < (v1.offset + index1) * element_size v1.kind
                      + element_size v1.kind then
              byteAt (natToBytes (element_size v1.kind)
                  ((value % ((2 ^ (8 * element_size v1.kind) : Nat) : Int)).toNat))
                ((v2.offset + index2) * element_size v2.kind + j
                  - (v1.offset + index1) * element_size v1.kind)
            else
              byteAt b.buffer
                ((v2.offset + index2) * element_size v2.kind + j))))) := by
  have hb := view_byte_bound v1 b index1 hwf hr1 hi1
  rw [typed_array_set, if_pos hi1]
  show typed_array_get v2 _ index2 = _
  rw [typed_array_get, if_pos hi2]
  show Except.ok (reinterpret v2.kind (bytesToNat (readBytes
      (writeBytes b.buffer ((v1.offset + index1) * element_size v1.kind)
        (natToBytes (element_size v1.kind)
          ((value % ((2 ^ (8 * element_size v1.kind) : Nat) : Int)).toNat)))
      ((v2.offset + index2) * element_size v2.kind)
      (element_size v2.kind)))) = _
  rw [readBytes_eq_map]
  have hpt : ∀ j : Nat,
      byteAt (writeBytes b.buffer ((v1.offset + index1) * element_size v1.kind)
          (natToBytes (element_size v1.kind)
            ((value % ((2 ^ (8 * element_size v1.kind) : Nat) : Int)).toNat)))
        ((v2.offset + index2) * element_size v2.kind + j)
      = (if (v1.offset + index1) * element_size v1.kind
              ≤ (v2.offset + index2) * element_size v2.kind + j ∧
            (v2.offset + index2) * element_size v2.kind + j
              < (v1.offset + index1) * element_size v1.kind + element_size v1.kind
          then byteAt (natToBytes (element_size v1.kind)
              ((value % ((2 ^ (8 * element_size v1.kind) : Nat) : Int)).toNat))
            ((v2.offset + index2) * element_size v2.kind + j
              - (v1.offset + index1) * element_size v1.kind)
          else byteAt b.buffer ((v2.offset + index2) * element_size v2.kind + j)) := by
    intro j
    have h := byteAt_writeBytes_cases
      (natToBytes (element_size v1.kind)
        ((value % ((2 ^ (8 * element_size v1.kind) : Nat) : Int)).toNat))
      b.buffer ((v1.offset + index1) * element_size v1.kind)
      ((v2.offset + index2) * element_size v2.kind + j)
      (by rw [length_natToBytes]; exact hb)
    rwa [length_natToBytes] at h
  rw [List.map_congr_left (fun j _ => hpt j)]

/-- Closed instances of C7 in both directions: writing `0x0102` through a
`uint16` view of a 2-byte buffer is observed through a `uint8` view of the
same buffer (its element 1 reads the high written byte 1), and writing 7
through a `uint8` view of the buffer `[5, 9]` is observed through a `uint16`
view, which reads the written low byte together with the untouched high byte
(`7 + 256 * 9`). -/
theorem aliasing_observed_witness :
    (typed_array_set ⟨.UINT16, 0, 1⟩ ⟨List.replicate 2 0, 2, true⟩ 0 258).bind
      (fun b2 => typed_array_get ⟨.UINT8, 0, 2⟩ b2 1) = .ok 1 ∧
    (typed_array_set ⟨.UINT8, 0, 2⟩ ⟨[5, 9], 2, true⟩ 0 7).bind
      (fun b2 => typed_array_get ⟨.UINT16, 0, 1⟩ b2 0) = .ok 2311 := by
  constructor
  · exact (aliasing_observed ⟨.UINT16, 0, 1⟩ ⟨.UINT8, 0, 2⟩
      ⟨List.replicate 2 0, 2, true⟩ 0 1 258 rfl (by decide) (by decide)
      (by decide)).trans (congrArg Except.ok (by decide))
  · exact (aliasing_observed ⟨.UINT8, 0, 2⟩ ⟨.UINT16, 0, 1⟩
      ⟨[5, 9], 2, true⟩ 0 0 7 rfl (by decide) (by decide)
      (by decide)).trans (congrArg Except.ok (by decide))

/-! ## Resource Handle Registry

Embedded from the four resource declarations of `src/extension/wasm.hh`
(`wasm_bytes`, `wasm_module`, `wasm_instance`, `wasm_value`, lines 100–173)
and the persistent clean-up pass (`clean_up_persistent_resources` /
`php_wasm_module_clean_up_persistent_resources`, lines 132–141). -/

/-- The four resource kinds declared in the header, one per resource name /
destructor pair. -/
inductive wasm_resource_kind where
  | wasm_bytes
  | wasm_module
  | wasm_instance
  | wasm_value
  deriving DecidableEq, Repr

/-- Association-list lookup on the persistent table. -/
def rlookup : List (Nat × wasm_resource_kind) → Nat → Option wasm_resource_kind
  | [], _ => none
  | e :: t, id => if e.1 = id then some e.2 else rlookup t id

/-- Remove every entry with the given id from the persistent table. -/
def rremove : List (Nat × wasm_resource_kind) → Nat →
    List (Nat × wasm_resource_kind)
  | [], _ => []
  | e :: t, id => if e.1 = id then rremove t id else e :: rremove t id

/-- The number of teardown-log entries recorded for a given handle id. -/
def tcount_list : List (Nat × wasm_resource_kind) → Nat → Nat
  | [], _ => 0
  | e :: t, id => (if e.1 = id then 1 else 0) + tcount_list t id

/-- Modelled from the spec: the registry state implied by §4.3.  `table` is
the process-wide persistent table; `destroyed` records handles whose one-shot
destructor has run; `teardown_log` records every invocation of a
kind-specific native destructor (one entry per call, tagged with the kind
whose destructor ran); `teardown_errors` records handles whose native
teardown reported an error; `next_id` supplies fresh handle ids. -/
structure registry_state where
  table : List (Nat × wasm_resource_kind)
  destroyed : List Nat
  teardown_log : List (Nat × wasm_resource_kind)
  teardown_errors : List Nat
  next_id : Nat
  deriving DecidableEq, Repr

/-- The empty registry at module startup. -/
def registry_init : registry_state := ⟨[], [], [], [], 0⟩

/-- Modelled from the spec: §4.3 `register` wraps a native object of the
given kind in a fresh live handle and inserts it into the persistent table. -/
def reg_register (k : wasm_resource_kind) (s : registry_state) :
    Nat × registry_state :=
  (s.next_id,
    ⟨(s.next_id, k) :: s.table, s.destroyed, s.teardown_log, s.teardown_errors,
      s.next_id + 1⟩)

/-- Modelled from the spec: §4.3 `destroy` is a no-op on an already-destroyed
or unknown handle; otherwise it invokes the kind-specific native destructor
exactly once (recording an error without failing when the teardown reports
one, per §7), marks the handle destroyed and removes it from the table.
`tfail` abstracts which native teardowns report errors. -/
def reg_destroy (tfail : Nat → Bool) (id : Nat) (s : registry_state) :
    registry_state :=
  if s.destroyed.contains id then s
  else
    match rlookup s.table id with
    | none => s
    | some k =>
      ⟨rremove s.table id, id :: s.destroyed, (id, k) :: s.teardown_log,
        (if tfail id then id :: s.teardown_errors else s.teardown_errors),
        s.next_id⟩

/-- Modelled from the spec: §4.3 `extract` fails with `StaleHandleError` on a
destroyed handle and otherwise returns the wrapped native object (represented
by its kind tag). -/
def reg_extract (id : Nat) (s : registry_state) :
    Except wasm_error wasm_resource_kind :=
  if s.destroyed.contains id then .error .staleHandleError
  else
    match rlookup s.table id with
    | some k => .ok k
    | none => .error .staleHandleError

/-- Modelled from the spec: §4.3 `sweep_all` iterates the persistent table
and destroys every still-live handle; teardown errors are recorded and the
sweep continues. -/
def sweep_all (tfail : Nat → Bool) (s : registry_state) : registry_state :=
  (s.table.map (fun e => e.1)).foldl (fun st id => reg_destroy tfail id st) s

/-- Register a whole list of kinds in order, returning the final state. -/
def register_many (ks : List wasm_resource_kind) (s : registry_state) :
    registry_state :=
  ks.foldl (fun st k => (reg_register k st).2) s

/-! ### Registry lemmas -/

theorem rlookup_rremove_self (t : List (Nat × wasm_resource_kind)) (id : Nat) :
    rlookup (rremove t id) id = none := by
  induction t with
  | nil => rfl
  | cons e rest ih =>
    unfold rremove
    by_cases h : e.1 = id
    · rw [if_pos h]; exact ih
    · rw [if_neg h]
      unfold rlookup
      rw [if_neg h]; exact ih

theorem rlookup_rremove_ne (t : List (Nat × wasm_resource_kind)) (id j : Nat)
    (h : j ≠ id) : rlookup (rremove t id) j = rlookup t j := by
  induction t with
  | nil => rfl
  | cons e rest ih =>
    unfold rremove
    by_cases he : e.1 = id
    · rw [if_pos he, ih]
      show rlookup rest j = if e.1 = j then some e.2 else rlookup rest j
      rw [if_neg (by rw [he]; omega)]
    · rw [if_neg he]
      unfold rlookup
      by_cases hej : e.1 = j
      · rw [if_pos hej, if_pos hej]
      · rw [if_neg hej, if_neg hej, ih]

theorem destroyed_mono (tfail : Nat → Bool) (id j : Nat) (s : registry_state)
    (h : id ∈ s.destroyed) : id ∈ (reg_destroy tfail j s).destroyed := by
  unfold reg_destroy
  by_cases hc : s.destroyed.contains j
  · rw [if_pos hc]; exact h
  · rw [if_neg hc]
    cases hl : rlookup s.table j with
    | none => exact h
    | some k => exact List.mem_cons_of_mem j h

/-- A handle is accounted for when it is either already destroyed or still
present in the persistent table. -/
def accounted (s : registry_state) (id : Nat) : Prop :=
  id ∈ s.destroyed ∨ (rlookup s.table id).isSome

theorem accounted_destroy_self (tfail : Nat → Bool) (id : Nat)
    (s : registry_state) (h : accounted s id) :
    id ∈ (reg_destroy tfail id s).destroyed := by
  unfold reg_destroy
  by_cases hc : s.destroyed.contains id
  · rw [if_pos hc]
    exact List.mem_of_elem_eq_true hc
  · rw [if_neg hc]
    cases hl : rlookup s.table id with
    | none =>
      rcases h with h | h
      · exact h
      · rw [hl] at h; cases h
    | some k => exact List.mem_cons_self id _

theorem accounted_destroy (tfail : Nat → Bool) (id j : Nat) (s : registry_state)
    (h : accounted s id) : accounted (reg_destroy tfail j s) id := by
  by_cases hij : id = j
  · subst hij
    exact Or.inl (accounted_destroy_self tfail id s h)
  · unfold reg_destroy
    by_cases hc : s.destroyed.contains j
    · rw [if_pos hc]; exact h
    · rw [if_neg hc]
      cases hl : rlookup s.table j with
      | none => exact h
      | some k =>
        rcases h with h | h
        · exact Or.inl (List.mem_cons_of_mem j h)
        · refine Or.inr ?_
          show (rlookup (rremove s.table j) id).isSome
          rw [rlookup_rremove_ne s.table j id hij]
          exact h

theorem sweep_destroys (tfail : Nat → Bool) (ids : List Nat) (id : Nat)
    (s : registry_state) (hmem : id ∈ ids ∨ id ∈ s.destroyed)
    (hacc : accounted s id) :
    id ∈ (ids.foldl (fun st j => reg_destroy tfail j st) s).destroyed := by
  induction ids generalizing s with
  | nil =>
    rcases hmem with h | h
    · cases h
    · exact h
  | cons j rest ih =>
    show id ∈ (rest.foldl (fun st j => reg_destroy tfail j st)
      (reg_destroy tfail j s)).destroyed
    rcases hmem with h | h
    · rcases List.mem_cons.mp h with h | h
      · refine ih (reg_destroy tfail j s) (Or.inr ?_)
          (accounted_destroy tfail id j s hacc)
        rw [h]
        exact accounted_destroy_self tfail j s (h ▸ hacc)
      · exact ih (reg_destroy tfail j s) (Or.inl h)
          (accounted_destroy tfail id j s hacc)
    · exact ih (reg_destroy tfail j s)
        (Or.inr (destroyed_mono tfail id j s h))
        (accounted_destroy tfail id j s hacc)

theorem register_many_next_id (ks : List wasm_resource_kind)
    (s : registry_state) :
    (register_many ks s).next_id = s.next_id + ks.length := by
  induction ks generalizing s with
  | nil => rfl
  | cons k rest ih =>
    show (register_many rest (reg_register k s).2).next_id = _
    rw [ih]
    show s.next_id + 1 + rest.length = s.next_id + (rest.length + 1)
    omega

theorem register_many_accounted (ks : List wasm_resource_kind)
    (s : registry_state) (id : Nat)
    (h : s.next_id ≤ id ∧ id < s.next_id + ks.length ∨ accounted s id) :
    accounted (register_many ks s) id := by
  induction ks generalizing s with
  | nil =>
    rcases h with h | h
    · simp only [List.length_nil] at h; omega
    · exact h
  | cons k rest ih =>
    show accounted (register_many rest (reg_register k s).2) id
    rcases h with h | h
    · by_cases hid : id = s.next_id
      · refine ih (reg_register k s).2 (Or.inr (Or.inr ?_))
        show (rlookup ((s.next_id, k) :: s.table) id).isSome
        unfold rlookup
        rw [if_pos hid.symm]
        rfl
      · refine ih (reg_register k s).2 (Or.inl ?_)
        show s.next_id + 1 ≤ id ∧ id < s.next_id + 1 + rest.length
        simp at h
        omega
    · refine ih (reg_register k s).2 (Or.inr ?_)
      rcases h with h | h
      · exact Or.inl h
      · refine Or.inr ?_
        show (rlookup ((s.next_id, k) :: s.table) id).isSome
        unfold rlookup
        by_cases he : s.next_id = id
        · rw [if_pos he]; rfl
        · rw [if_neg he]; exact h

theorem contains_iff_mem (l : List Nat) (a : Nat) :
    l.contains a = true ↔ a ∈ l := by
  simp [List.contains, List.elem_eq_mem]

theorem extract_stale_of_destroyed (id : Nat) (s : registry_state)
    (h : id ∈ s.destroyed) :
    reg_extract id s = .error .staleHandleError := by
  unfold reg_extract
  rw [if_pos ((contains_iff_mem s.destroyed id).mpr h)]

theorem destroy_destroy (tfail : Nat → Bool) (j : Nat) (s : registry_state) :
    reg_destroy tfail j (reg_destroy tfail j s) = reg_destroy tfail j s := by
  unfold reg_destroy
  by_cases hc : s.destroyed.contains j
  · rw [if_pos hc, if_pos hc]
  · rw [if_neg hc]
    cases hl : rlookup s.table j with
    | none =>
      rw [if_neg hc, hl]
    | some k =>
      rw [if_pos ((contains_iff_mem _ j).mpr (List.mem_cons_self j s.destroyed))]

/-- C2: `destroy` is idempotent — a second `destroy` of the same handle is a
no-op state-wise — and on a live handle it invokes the kind-specific native
destructor exactly once (the teardown log gains exactly one entry, tagged
with the handle's kind), marks the handle destroyed, removes it from the
persistent table, and makes `extract` fail with `StaleHandleError`. -/
theorem destroy_idempotent_once (tfail : Nat → Bool) (s : registry_state)
    (id : Nat) (k : wasm_resource_kind)
    (h1 : tcount_list s.teardown_log id = 0)
    (h2 : ¬ id ∈ s.destroyed)
    (h3 : rlookup s.table id = some k) :
    (∀ s2 j, reg_destroy tfail j (reg_destroy tfail j s2) = reg_destroy tfail j s2) ∧
    tcount_list (reg_destroy tfail id s).teardown_log id = 1 ∧
    id ∈ (reg_destroy tfail id s).destroyed ∧
    rlookup (reg_destroy tfail id s).table id = none ∧
    (id, k) ∈ (reg_destroy tfail id s).teardown_log ∧
    reg_extract id (reg_destroy tfail id s) = .error .staleHandleError := by
  have hc : s.destroyed.contains id = false := by
    by_cases h : s.destroyed.contains id = true
    · exact absurd ((contains_iff_mem _ id).mp h) h2
    · simpa using h
  have hs : reg_destroy tfail id s =
      ⟨rremove s.table id, id :: s.destroyed, (id, k) :: s.teardown_log,
        (if tfail id then id :: s.teardown_errors else s.teardown_errors),
        s.next_id⟩ := by
    unfold reg_destroy
    rw [if_neg (by rw [hc]; simp), h3]
  refine ⟨fun s2 j => destroy_destroy tfail j s2, ?_, ?_, ?_, ?_, ?_⟩
  · rw [hs]
    show (if id = id then 1 else 0) + tcount_list s.teardown_log id = 1
    rw [if_pos rfl, h1]
  · rw [hs]
    exact List.mem_cons_self id s.destroyed
  · rw [hs]
    exact rlookup_rremove_self s.table id
  · rw [hs]
    exact List.mem_cons_self (id, k) s.teardown_log
  · exact extract_stale_of_destroyed id _ (by
      rw [hs]; exact List.mem_cons_self id s.destroyed)

/-- A closed instance of C2: in the registry holding the single live
byte-array handle 0, destroying it logs exactly one teardown, a repeated
destroy changes nothing, and `extract` reports `StaleHandleError`. -/
theorem destroy_idempotent_once_witness :
    tcount_list (reg_destroy (fun _ => false) 0
      ⟨[(0, .wasm_bytes)], [], [], [], 1⟩).teardown_log 0 = 1 ∧
    reg_destroy (fun _ => false) 0 (reg_destroy (fun _ => false) 0
      ⟨[(0, .wasm_bytes)], [], [], [], 1⟩) =
      reg_destroy (fun _ => false) 0 ⟨[(0, .wasm_bytes)], [], [], [], 1⟩ ∧
    reg_extract 0 (reg_destroy (fun _ => false) 0
      ⟨[(0, .wasm_bytes)], [], [], [], 1⟩) = .error .staleHandleError :=
  ⟨(destroy_idempotent_once (fun _ => false)
      ⟨[(0, .wasm_bytes)], [], [], [], 1⟩ 0 .wasm_bytes rfl (by simp) rfl).2.1,
   (destroy_idempotent_once (fun _ => false)
      ⟨[(0, .wasm_bytes)], [], [], [], 1⟩ 0 .wasm_bytes rfl (by simp) rfl).1
      ⟨[(0, .wasm_bytes)], [], [], [], 1⟩ 0,
   (destroy_idempotent_once (fun _ => false)
      ⟨[(0, .wasm_bytes)], [], [], [], 1⟩ 0 .wasm_bytes rfl (by simp) rfl).2.2.2.2.2⟩

theorem register_many_destroyed (ks : List wasm_resource_kind)
    (s : registry_state) :
    (register_many ks s).destroyed = s.destroyed := by
  induction ks generalizing s with
  | nil => rfl
  | cons k rest ih =>
    show (register_many rest (reg_register k s).2).destroyed = _
    rw [ih]
    rfl

theorem rlookup_isSome_mem (t : List (Nat × wasm_resource_kind)) (id : Nat)
    (h : (rlookup t id).isSome) : id ∈ t.map (fun e => e.1) := by
  induction t with
  | nil => cases h
  | cons e rest ih =>
    unfold rlookup at h
    by_cases he : e.1 = id
    · exact List.mem_cons.mpr (Or.inl he.symm)
    · rw [if_neg he] at h
      exact List.mem_cons.mpr (Or.inr (ih h))

/-- C3: after `k` registrations with no intervening destroy, one `sweep_all`
destroys all `k` outstanding handles — every subsequent `extract` fails with
`StaleHandleError` — for every pattern of native-teardown failures (a
failing teardown is recorded and does not stop the sweep), and the sweep on
an empty table is a safe no-op. -/
theorem sweep_all_complete (ks : List wasm_resource_kind) (tfail : Nat → Bool)
    (id : Nat) (hid : id < ks.length) :
    reg_extract id (sweep_all tfail (register_many ks registry_init))
      = .error .staleHandleError ∧
    sweep_all tfail registry_init = registry_init := by
  constructor
  · have hacc : accounted (register_many ks registry_init) id :=
      register_many_accounted ks registry_init id
        (Or.inl ⟨Nat.zero_le id, by show id < 0 + ks.length; omega⟩)
    have hmem : id ∈ (register_many ks registry_init).table.map (fun e => e.1) := by
      rcases hacc with h | h
      · rw [register_many_destroyed] at h
        cases h
      · exact rlookup_isSome_mem _ id h
    exact extract_stale_of_destroyed id _
      (sweep_destroys tfail _ id (register_many ks registry_init)
        (Or.inl hmem) hacc)
  · rfl

/-- A closed instance of C3: registering a byte-array and a module handle
and sweeping (with every native teardown reporting an error) leaves handle 1
extracting to `StaleHandleError`, and the sweep of the empty registry is the
identity. -/
theorem sweep_all_complete_witness :
    reg_extract 1 (sweep_all (fun _ => true)
      (register_many [.wasm_bytes, .wasm_module] registry_init))
      = .error .staleHandleError ∧
    sweep_all (fun _ => true) registry_init = registry_init :=
  sweep_all_complete [.wasm_bytes, .wasm_module] (fun _ => true) 1 (by decide)

/-! ## View keep-alive liveness (C1) -/

/-- Modelled from the spec: the `zval *wasm_array_buffer` member of
`wasm_typed_array_object` (src lines 210–212) is a reference-counted host
reference, and the bodies of the view constructor and
`destroy_wasm_typed_array_object` (src lines 248–252) are not in `src/`.
§5 specifies the protocol: view construction increments the buffer's
reference count, view destruction decrements it, and the host finalizes the
buffer exactly when the count reaches zero.  The world tracks the buffer's
count, liveness and contents. -/
structure host_world where
  buf_refcount : Nat
  buf_alive : Bool
  buf : wasm_array_buffer_object
  deriving DecidableEq, Repr

/-- Modelled from the spec: view construction takes the strong keep-alive
reference on the buffer (increment). -/
def view_acquire (w : host_world) : host_world :=
  { w with buf_refcount := w.buf_refcount + 1 }

/-- Modelled from the spec: releasing one reference — either the host making
the buffer otherwise unreachable, or a view's destructor giving up its
keep-alive reference; the buffer is finalized when the count reaches 0. -/
def drop_ref (w : host_world) : host_world :=
  if w.buf_refcount ≤ 1 then
    { w with buf_refcount := 0, buf_alive := false }
  else
    { w with buf_refcount := w.buf_refcount - 1 }

/-- A `get` against the world: defined only while the buffer is alive. -/
def world_view_get (w : host_world) (v : wasm_typed_array_object)
    (index : Nat) : Option (Except wasm_error Int) :=
  if w.buf_alive then some (typed_array_get v w.buf index) else none

/-- A `set` against the world: defined only while the buffer is alive. -/
def world_view_set (w : host_world) (v : wasm_typed_array_object)
    (index : Nat) (value : Int) : Option (host_world × Option wasm_error) :=
  if w.buf_alive then
    some ({ w with buf := (typed_array_set_run v w.buf index value).1 },
      (typed_array_set_run v w.buf index value).2)
  else
    none

/-- C1: a constructed view keeps its buffer alive.  Starting from a live
buffer whose only other reference is the host's, constructing a view
(increment) and then making the buffer otherwise unreachable (decrement)
leaves the buffer alive with the view's keep-alive count, so the view's
subsequent `get` and `set` stay valid; only when the view itself is
destroyed (the final decrement) is the buffer finalized. -/
theorem view_keep_alive (w : host_world) (v : wasm_typed_array_object)
    (index : Nat) (value : Int)
    (halive : w.buf_alive = true) (hrc : w.buf_refcount = 1) :
    (drop_ref (view_acquire w)).buf_alive = true ∧
    (drop_ref (view_acquire w)).buf_refcount = 1 ∧
    (drop_ref (view_acquire w)).buf = w.buf ∧
    world_view_get (drop_ref (view_acquire w)) v index
      = some (typed_array_get v w.buf index) ∧
    world_view_set (drop_ref (view_acquire w)) v index value
      = some ({ drop_ref (view_acquire w) with
          buf := (typed_array_set_run v w.buf index value).1 },
          (typed_array_set_run v w.buf index value).2) ∧
    (drop_ref (drop_ref (view_acquire w))).buf_alive = false := by
  have h2 : drop_ref (view_acquire w)
      = { w with buf_refcount := 1 } := by
    unfold drop_ref view_acquire
    rw [if_neg (by simp [hrc])]
    simp [hrc]
  refine ⟨?_, ?_, ?_, ?_, ?_, ?_⟩
  · rw [h2]; exact halive
  · rw [h2]
  · rw [h2]
  · rw [h2]
    unfold world_view_get
    rw [if_pos (by simpa using halive)]
  · rw [h2]
    unfold world_view_set
    rw [if_pos (by simpa using halive)]
  · rw [h2]
    unfold drop_ref
    rw [if_pos (by simp)]

/-- A closed instance of C1: with a live 1-byte buffer under a single host
reference, view construction followed by the host dropping its reference
leaves the buffer alive and the view's `get 0` still defined. -/
theorem view_keep_alive_witness :
    (drop_ref (view_acquire ⟨1, true, ⟨[0], 1, true⟩⟩)).buf_alive = true ∧
    world_view_get (drop_ref (view_acquire ⟨1, true, ⟨[0], 1, true⟩⟩))
      ⟨.UINT8, 0, 1⟩ 0 = some (typed_array_get ⟨.UINT8, 0, 1⟩ ⟨[0], 1, true⟩ 0) :=
  ⟨(view_keep_alive ⟨1, true, ⟨[0], 1, true⟩⟩ ⟨.UINT8, 0, 1⟩ 0 0 rfl rfl).1,
   (view_keep_alive ⟨1, true, ⟨[0], 1, true⟩⟩ ⟨.UINT8, 0, 1⟩ 0 0 rfl rfl).2.2.2.1⟩

/-! ## Free discipline for the byte region (C9) -/

/-- Modelled from the spec: the destroy/free split of
`destroy_wasm_array_buffer_object` / `free_wasm_array_buffer_object`
(src lines 84–89), whose bodies are not in `src/`; §3 and §4.1 specify that
finalization frees the region exactly when `allocated_buffer` is set and
that nothing else ever frees it. `frees` counts the frees this layer
performed on the region. -/
structure buffer_lifecycle where
  obj : wasm_array_buffer_object
  frees : Nat
  finalized : Bool
  deriving DecidableEq, Repr

/-- The host-visible operations available on a live buffer (§4.1, §4.2). -/
inductive buffer_op where
  | opGet (v : wasm_typed_array_object) (index : Nat)
  | opSet (v : wasm_typed_array_object) (index : Nat) (value : Int)
  | opByteLength

/-- Run one lifetime operation; reads leave the state alone and writes only
replace buffer contents. -/
def run_buffer_op (st : buffer_lifecycle) : buffer_op → buffer_lifecycle
  | .opGet _ _ => st
  | .opSet v index value =>
    { st with obj := (typed_array_set_run v st.obj index value).1 }
  | .opByteLength => st

/-- Run a whole lifetime of operations. -/
def run_buffer_ops (st : buffer_lifecycle) (ops : List buffer_op) :
    buffer_lifecycle :=
  ops.foldl run_buffer_op st

/-- Modelled from the spec: `free_wasm_array_buffer_object` releases the
region exactly when this layer allocated it, and marks the object
finalized. -/
def free_wasm_array_buffer_object (st : buffer_lifecycle) : buffer_lifecycle :=
  { st with
    frees := st.frees + (if st.obj.allocated_buffer then 1 else 0),
    finalized := true }

theorem allocated_set_run (v : wasm_typed_array_object)
    (b : wasm_array_buffer_object) (index : Nat) (value : Int) :
    ((typed_array_set_run v b index value).1).allocated_buffer
      = b.allocated_buffer := by
  unfold typed_array_set_run typed_array_set
  by_cases h : index < v.length
  · rw [if_pos h]
  · rw [if_neg h]

theorem run_buffer_ops_no_free (ops : List buffer_op) (st : buffer_lifecycle) :
    (run_buffer_ops st ops).frees = st.frees ∧
    (run_buffer_ops st ops).obj.allocated_buffer = st.obj.allocated_buffer := by
  induction ops generalizing st with
  | nil => exact ⟨rfl, rfl⟩
  | cons op rest ih =>
    have hstep : run_buffer_ops st (op :: rest)
        = run_buffer_ops (run_buffer_op st op) rest := rfl
    rcases ih (run_buffer_op st op) with ⟨hf, ha⟩
    have hopf : (run_buffer_op st op).frees = st.frees := by
      cases op with
      | opGet v index => rfl
      | opSet v index value => rfl
      | opByteLength => rfl
    have hopa : (run_buffer_op st op).obj.allocated_buffer
        = st.obj.allocated_buffer := by
      cases op with
      | opGet v index => rfl
      | opSet v index value => exact allocated_set_run v st.obj index value
      | opByteLength => rfl
    rw [hstep, hf, ha, hopf, hopa]
    exact ⟨rfl, rfl⟩

/-- C9: over any whole lifetime of a buffer — any sequence of host-visible
operations followed by the host's single finalization — this layer performs
no free before finalization, and finalization frees the region exactly once
when `allocated_buffer` is set and not at all when the region is adopted. -/
theorem free_exactly_once (b : wasm_array_buffer_object) (ops : List buffer_op) :
    (run_buffer_ops ⟨b, 0, false⟩ ops).frees = 0 ∧
    (free_wasm_array_buffer_object (run_buffer_ops ⟨b, 0, false⟩ ops)).frees
      = (if b.allocated_buffer then 1 else 0) := by
  rcases run_buffer_ops_no_free ops ⟨b, 0, false⟩ with ⟨hf, ha⟩
  constructor
  · exact hf
  · unfold free_wasm_array_buffer_object
    rw [hf, ha]
    simp

/-! ## Cached union pointer consistency (C10) -/

/-- A typed-array object together with the cached union pointer of the
`view` member of `wasm_typed_array_object` (src lines 224–231), modelled as
the byte address shared by the union's six typed variants. -/
structure typed_array_runtime where
  descr : wasm_typed_array_object
  view_ptr : Nat
  deriving DecidableEq, Repr

/-- Modelled from the spec: one buffer at a fixed base address together with
the family of views constructed over it; per §9 the buffer's region pointer
and length never change after construction. -/
structure view_world where
  buf_base : Nat
  buf : wasm_array_buffer_object
  views : List typed_array_runtime
  deriving DecidableEq, Repr

/-- Modelled from the spec: view construction computes the cached pointer
once, as the buffer's byte pointer advanced by `offset` elements of the
view's kind (the `__construct` body is not in `src/`). -/
def mk_view (w : view_world) (k : wasm_typed_array_kind)
    (offset length : Nat) : view_world :=
  { w with views := w.views ++
      [⟨⟨k, offset, length⟩, w.buf_base + offset * element_size k⟩] }

/-- The operations §4.2 allows after construction, each acting through one
of the constructed views (`i` indexes `views`). -/
inductive view_op where
  | opGet (i : Nat) (index : Nat)
  | opSet (i : Nat) (index : Nat) (value : Int)
  | opLength (i : Nat)
  | opKind (i : Nat)

/-- Run one view operation; only `set` touches the world, and it only
replaces buffer bytes. -/
def run_view_op (w : view_world) : view_op → view_world
  | .opGet _ _ => w
  | .opSet i index value =>
    match w.views[i]? with
    | some tv =>
      { w with buf := (typed_array_set_run tv.descr w.buf index value).1 }
    | none => w
  | .opLength _ => w
  | .opKind _ => w

/-- Run a sequence of view operations. -/
def run_view_ops (w : view_world) (ops : List view_op) : view_world :=
  ops.foldl run_view_op w

/-- Every constructed view's cached pointer equals the construction-time
value recomputed from the (immutable) buffer base and the view's kind and
offset. -/
def cache_consistent (w : view_world) : Prop :=
  ∀ tv ∈ w.views,
    tv.view_ptr = w.buf_base + tv.descr.offset * element_size tv.descr.kind

theorem run_view_op_frame (w : view_world) (op : view_op) :
    (run_view_op w op).views = w.views ∧
    (run_view_op w op).buf_base = w.buf_base ∧
    (run_view_op w op).buf.buffer_length = w.buf.buffer_length := by
  cases op with
  | opGet i index => exact ⟨rfl, rfl, rfl⟩
  | opSet i index value =>
    cases h : w.views[i]? with
    | none => simp [run_view_op, h]
    | some tv =>
      refine ⟨?_, ?_, ?_⟩
      · simp [run_view_op, h]
      · simp [run_view_op, h]
      · simp only [run_view_op, h]
        exact byte_length_set_run tv.descr w.buf index value
  | opLength i => exact ⟨rfl, rfl, rfl⟩
  | opKind i => exact ⟨rfl, rfl, rfl⟩

/-- C10: the cached typed pointer is fixed at construction as the buffer
base advanced by `offset` elements, and every subsequent operation — `get`,
`set`, `length`, `kind`, through this view or any other view of the same
buffer — leaves every view's cached pointer, kind, offset and length
unchanged, the buffer base and length being immutable, so the cache stays
equal to its construction-time value. -/
theorem cached_pointer_stable (w : view_world) (k : wasm_typed_array_kind)
    (offset length : Nat) (ops : List view_op)
    (hw : cache_consistent w) :
    (run_view_ops (mk_view w k offset length) ops).views
      = w.views ++ [⟨⟨k, offset, length⟩, w.buf_base + offset * element_size k⟩] ∧
    (run_view_ops (mk_view w k offset length) ops).buf_base = w.buf_base ∧
    (run_view_ops (mk_view w k offset length) ops).buf.buffer_length
      = w.buf.buffer_length ∧
    cache_consistent (run_view_ops (mk_view w k offset length) ops) := by
  have hframe : ∀ ops2 w2, (run_view_ops w2 ops2).views = w2.views ∧
      (run_view_ops w2 ops2).buf_base = w2.buf_base ∧
      (run_view_ops w2 ops2).buf.buffer_length = w2.buf.buffer_length := by
    intro ops2
    induction ops2 with
    | nil => exact fun w2 => ⟨rfl, rfl, rfl⟩
    | cons op rest ih =>
      intro w2
      show (run_view_ops (run_view_op w2 op) rest).views = w2.views ∧ _
      rcases ih (run_view_op w2 op) with ⟨h1, h2, h3⟩
      rcases run_view_op_frame w2 op with ⟨g1, g2, g3⟩
      exact ⟨h1.trans g1, h2.trans g2, h3.trans g3⟩
  rcases hframe ops (mk_view w k offset length) with ⟨h1, h2, h3⟩
  have hmk : cache_consistent (mk_view w k offset length) := by
    intro tv htv
    rcases List.mem_append.mp htv with h | h
    · exact hw tv h
    · rcases List.mem_singleton.mp h with rfl
      rfl
  refine ⟨h1, h2, h3, ?_⟩
  intro tv htv
  rw [h1, h2] at *
  exact hmk tv (by rw [← h1]; exact htv)

/-- A closed instance of C10: constructing a `uint8` view at offset 2 over a
buffer based at address 100 caches pointer 102, and a `set` through that
view leaves the view family — and the cached pointer — untouched. -/
theorem cached_pointer_stable_witness :
    (run_view_ops (mk_view ⟨100, ⟨List.replicate 4 0, 4, true⟩, []⟩ .UINT8 2 2)
      [.opSet 0 0 7]).views = [⟨⟨.UINT8, 2, 2⟩, 102⟩] := by
  have h := cached_pointer_stable ⟨100, ⟨List.replicate 4 0, 4, true⟩, []⟩
    .UINT8 2 2 [.opSet 0 0 7] (fun tv htv => absurd htv (List.not_mem_nil tv))
  simpa using h.1

end PhpExtWasm
